import Mathlib

/-!
A verification development for the `diskcache` package: a shallow embedding
of its data model and operations (the policy matcher, the header rewriters,
the body-transformer pipeline, the marshal layer, and the fetch
orchestrator), together with theorems settling the specified properties.

Bytes are modelled as `List Nat`, durations and instants as `Int`
(nanosecond counts), and fallible Go functions as `Except`-valued Lean
functions.  External collaborators (the Go regexp engine's submatching, the
compression primitives, the filesystem) are modelled abstractly exactly at
the interface the cache consumes.
-/

namespace Diskcache

/-- ASCII bytes of a string literal. -/
def strBytes (s : String) : List Nat := s.data.map Char.toNat

/-- `crlf` — the bytes of `"\r\n"` (`util.go`). -/
def crlf : List Nat := [13, 10]

/-- `crlfcrlf` — the bytes of `"\r\n\r\n"` (`util.go`). -/
def crlfcrlf : List Nat := [13, 10, 13, 10]

/-- `httpHeader` — the bytes of `"HTTP/1.1 200 OK\r\n\r\n"` (`util.go`),
the synthetic head emitted by the flat unmarshaler. -/
def httpHeader : List Nat := strBytes "HTTP/1.1 200 OK\r\n\r\n"

/-- ASCII case folding of one byte, as Go's `(?i)` flag behaves on the
ASCII header names the package compiles into its regexps. -/
def toLowerByte (b : Nat) : Nat := if 65 ≤ b ∧ b ≤ 90 then b + 32 else b

/-!
## Header rewriters (`util.go`)

`stripHeaders` compiles each header-name pattern into the case-insensitive
regex `(?i)\r\n<pattern>:.+?\r\n` and repeatedly replaces every match with
`\r\n` until no match remains.  The name fragment of a compiled pattern is
modelled abstractly as a function `nameLen` giving, for a suffix of the
buffer, the number of bytes the fragment matches there (`none` when it does
not match): every compiled regex fragment induces such a function.  The
surrounding structure — the leading `\r\n`, the `:`, the non-greedy `.+?`
(one or more non-newline bytes, shortest match) and the trailing `\r\n` —
is modelled concretely.
-/

/-- Length matched by `.+?\r\n`: the least `k ≥ 1` such that the first `k`
bytes contain no newline and are followed by `\r\n`. -/
def nonGreedyBody : List Nat → Option Nat
  | [] => none
  | b :: rest =>
    if b == 10 then none
    else if rest.take 2 = crlf then some 1
    else (nonGreedyBody rest).map (· + 1)

/-- Length of the match of `\r\n<name>:.+?\r\n` at the start of `buf`,
where `nameLen` models the compiled name fragment. -/
def matchAt (nameLen : List Nat → Option Nat) (buf : List Nat) : Option Nat :=
  if buf.take 2 = crlf then
    match nameLen (buf.drop 2) with
    | none => none
    | some n =>
      match buf.drop (2 + n) with
      | [] => none
      | c :: rest => if c == 58 then (nonGreedyBody rest).map (fun k => 2 + n + 1 + k + 2)
                     else none
  else none

lemma nonGreedyBody_spec {l : List Nat} {k : Nat} (h : nonGreedyBody l = some k) :
    1 ≤ k ∧ k + 2 ≤ l.length := by
  induction l generalizing k with
  | nil => simp [nonGreedyBody] at h
  | cons b rest ih =>
    by_cases hb : b == 10
    · simp [nonGreedyBody, hb] at h
    · by_cases hc : rest.take 2 = crlf
      · simp [nonGreedyBody, hb, hc] at h
        subst h
        have : 2 ≤ rest.length := by
          have := congrArg List.length hc
          simp [crlf] at this
          omega
        constructor
        · omega
        · simp; omega
      · simp [nonGreedyBody, hb, hc] at h
        obtain ⟨k', hk', rfl⟩ := h
        have := ih hk'
        constructor
        · omega
        · simp; omega

lemma matchAt_spec {f : List Nat → Option Nat} {buf : List Nat} {m : Nat}
    (h : matchAt f buf = some m) : 6 ≤ m ∧ m ≤ buf.length := by
  unfold matchAt at h
  by_cases h2 : buf.take 2 = crlf
  · simp only [h2, if_true] at h
    match hn : f (buf.drop 2) with
    | none => simp [hn] at h
    | some n =>
      simp only [hn] at h
      match hd : buf.drop (2 + n) with
      | [] => simp [hd] at h
      | c :: rest =>
        simp only [hd] at h
        by_cases hc : c == 58
        · simp only [hc, if_true, Option.map_eq_some'] at h
          obtain ⟨k, hk, rfl⟩ := h
          obtain ⟨hk1, hk2⟩ := nonGreedyBody_spec hk
          -- the drop has length `buf.length - (2 + n)` and equals `c :: rest`
          have hlen : buf.length - (2 + n) = rest.length + 1 := by
            have := congrArg List.length hd
            simpa using this
          have hbuf2 : 2 ≤ buf.length := by
            have := congrArg List.length h2
            simp [crlf, List.length_take] at this
            omega
          constructor
          · omega
          · omega
        · simp [hc] at h
  · simp [h2] at h

/-- `Regexp.ReplaceAll(buf, crlf)`: replace every (leftmost,
non-overlapping) match of the header regex with `\r\n`. -/
def replaceAll (f : List Nat → Option Nat) : List Nat → List Nat
  | [] => []
  | b :: rest =>
    match h : matchAt f (b :: rest) with
    | some m => crlf ++ replaceAll f ((b :: rest).drop m)
    | none => b :: replaceAll f rest
termination_by l => l.length
decreasing_by
  · have := matchAt_spec h
    simp
    omega
  · simp

/-- `Regexp.Match(buf)`: whether the header regex matches anywhere. -/
def hasMatch (f : List Nat → Option Nat) : List Nat → Bool
  | [] => (matchAt f []).isSome
  | b :: rest => (matchAt f (b :: rest)).isSome || hasMatch f rest

lemma replaceAll_length_le (f : List Nat → Option Nat) :
    ∀ l : List Nat, (replaceAll f l).length ≤ l.length := by
  suffices h : ∀ n (l : List Nat), l.length = n → (replaceAll f l).length ≤ l.length by
    intro l; exact h l.length l rfl
  intro n
  induction n using Nat.strong_induction_on with
  | _ n ih =>
    intro l hn
    match l with
    | [] => simp [replaceAll]
    | b :: rest =>
      rw [replaceAll]
      match h : matchAt f (b :: rest) with
      | some m =>
        obtain ⟨hm6, hmle⟩ := matchAt_spec h
        simp only
        have hrec := ih (((b :: rest).drop m).length)
          (by subst hn; simp only [List.length_drop, List.length_cons] at *; omega)
          ((b :: rest).drop m) rfl
        have h2 : (crlf ++ replaceAll f ((b :: rest).drop m)).length
            = 2 + (replaceAll f ((b :: rest).drop m)).length := by simp [crlf]; omega
        rw [h2]
        simp only [List.length_drop, List.length_cons] at *
        omega
      | none =>
        simp only [List.length_cons]
        subst hn
        have hrec := ih rest.length (by simp) rest rfl
        simp
        omega

lemma replaceAll_shortens (f : List Nat → Option Nat) :
    ∀ l : List Nat, hasMatch f l = true → (replaceAll f l).length < l.length := by
  suffices h : ∀ n (l : List Nat), l.length = n → hasMatch f l = true →
      (replaceAll f l).length < l.length by
    intro l; exact h l.length l rfl
  intro n
  induction n using Nat.strong_induction_on with
  | _ n ih =>
    intro l hn
    match l with
    | [] =>
      intro hm
      simp [hasMatch, matchAt, crlf] at hm
    | b :: rest =>
      intro hm
      rw [replaceAll]
      match h : matchAt f (b :: rest) with
      | some m =>
        obtain ⟨hm6, hmle⟩ := matchAt_spec h
        simp only
        have hle := replaceAll_length_le f ((b :: rest).drop m)
        have h2 : (crlf ++ replaceAll f ((b :: rest).drop m)).length
            = 2 + (replaceAll f ((b :: rest).drop m)).length := by simp [crlf]; omega
        rw [h2]
        simp only [List.length_drop, List.length_cons] at *
        omega
      | none =>
        simp only [hasMatch, h, Option.isSome_none, Bool.false_or] at hm
        simp only [List.length_cons]
        subst hn
        have hrec := ih rest.length (by simp) rest rfl hm
        simp
        omega

/-- The `for re.Match(buf) { buf = re.ReplaceAll(buf, crlf) }` loop of
`stripHeaders`.  Total: each iteration strictly shortens the buffer. -/
def stripLoop (f : List Nat → Option Nat) (buf : List Nat) : List Nat :=
  if h : hasMatch f buf then stripLoop f (replaceAll f buf) else buf
termination_by buf.length
decreasing_by
  exact replaceAll_shortens f buf h

/-- Structural (fuel-indexed) form of `replaceAll`; `fuel ≥ buf.length`
makes it agree with `replaceAll` (`replaceAllGo_eq`), so the fuel is an
evaluation device, not a semantic bound. -/
def replaceAllGo (f : List Nat → Option Nat) : Nat → List Nat → List Nat
  | _, [] => []
  | 0, l => l
  | fuel + 1, b :: rest =>
    match matchAt f (b :: rest) with
    | some m => crlf ++ replaceAllGo f fuel ((b :: rest).drop m)
    | none => b :: replaceAllGo f fuel rest

lemma replaceAllGo_eq (f : List Nat → Option Nat) :
    ∀ (fuel : Nat) (l : List Nat), l.length ≤ fuel → replaceAllGo f fuel l = replaceAll f l := by
  intro fuel
  induction fuel with
  | zero =>
    intro l hl
    match l with
    | [] => simp [replaceAllGo, replaceAll]
  | succ fuel ih =>
    intro l hl
    match l with
    | [] => simp [replaceAllGo, replaceAll]
    | b :: rest =>
      rw [replaceAllGo, replaceAll]
      match h : matchAt f (b :: rest) with
      | some m =>
        obtain ⟨hm6, hmle⟩ := matchAt_spec h
        simp only
        rw [ih ((b :: rest).drop m)
          (by simp only [List.length_drop, List.length_cons] at *; omega)]
      | none =>
        simp only
        rw [ih rest (by simp only [List.length_cons] at hl; omega)]

/-- Structural (fuel-indexed) form of `stripLoop`; any `fuel > buf.length`
suffices (`stripLoopGo_eq`), as each iteration strictly shortens. -/
def stripLoopGo (f : List Nat → Option Nat) : Nat → List Nat → List Nat
  | 0, buf => buf
  | fuel + 1, buf =>
    if hasMatch f buf then stripLoopGo f fuel (replaceAllGo f buf.length buf) else buf

lemma stripLoopGo_eq (f : List Nat → Option Nat) :
    ∀ (fuel : Nat) (buf : List Nat), buf.length < fuel →
      stripLoopGo f fuel buf = stripLoop f buf := by
  intro fuel
  induction fuel with
  | zero => intro buf h; omega
  | succ fuel ih =>
    intro buf h
    rw [stripLoopGo, stripLoop]
    by_cases hm : hasMatch f buf
    · simp only [hm, if_true, dite_true]
      rw [replaceAllGo_eq f buf.length buf le_rfl]
      exact ih (replaceAll f buf)
        (by have := replaceAll_shortens f buf hm; omega)
    · simp [hm]

/-- `stripHeaders`: the rewriter built from a list of compiled name
fragments; for each in turn, strip matches until none remains.  Defined
through the fuel-indexed loop so that it is kernel-computable;
`stripHeadersFn_eq` identifies it with the unbounded loop `stripLoop`. -/
def stripHeadersFn (fs : List (List Nat → Option Nat)) (buf : List Nat) : List Nat :=
  fs.foldl (fun b f => stripLoopGo f (b.length + 1) b) buf

lemma stripHeadersFn_eq (fs : List (List Nat → Option Nat)) (buf : List Nat) :
    stripHeadersFn fs buf = fs.foldl (fun b f => stripLoop f b) buf := by
  unfold stripHeadersFn
  induction fs generalizing buf with
  | nil => rfl
  | cons f fs ih =>
    simp only [List.foldl_cons]
    rw [stripLoopGo_eq f (buf.length + 1) buf (by omega)]
    exact ih (stripLoop f buf)

/-- The name fragment compiled from a literal (meta-character-free) header
name: a case-insensitive literal match. -/
def literalNameLen (name : List Nat) (l : List Nat) : Option Nat :=
  if name.length ≤ l.length ∧ (l.take name.length).map toLowerByte = name.map toLowerByte
  then some name.length else none

/-- `stripTransferEncodingHeader` (`util.go` `init`). -/
def stripTransferEncodingHeader : List Nat → List Nat :=
  stripHeadersFn [literalNameLen (strBytes "Transfer-Encoding")]

/-- `stripContentLengthHeader` (`util.go` `init`). -/
def stripContentLengthHeader : List Nat → List Nat :=
  stripHeadersFn [literalNameLen (strBytes "Content-Length")]

lemma stripLoop_no_match (f : List Nat → Option Nat) (buf : List Nat) :
    hasMatch f (stripLoop f buf) = false := by
  suffices h : ∀ n (buf : List Nat), buf.length = n → hasMatch f (stripLoop f buf) = false by
    exact h buf.length buf rfl
  intro n
  induction n using Nat.strong_induction_on with
  | _ n ih =>
    intro buf hn
    rw [stripLoop]
    by_cases h : hasMatch f buf
    · simp only [h, dite_true]
      exact ih ((replaceAll f buf).length)
        (by subst hn; exact replaceAll_shortens f buf h) _ rfl
    · simp only [h, dite_false]
      exact Bool.eq_false_iff.mpr h

/-!
## Body transformers (`transformAndAppend`, `util.go`; `New`, sort step)

A `BodyTransformer` exposes `TransformPriority()` and
`BodyTransform(w, r, urlstr, code, contentType) → (success, err)`.  The
bytes written to `w` are returned as the result list; the in-memory readers
and writers of the Go code never fail, so only the transformer's own error
is modelled.
-/

/-- A body transformer: `TransformPriority` and `BodyTransform`. -/
structure BodyTransformer where
  priority : Int
  transform : List Nat → String → Int → String → Except String (Bool × List Nat)

/-- The `for _, m := range bodyTransformers` loop of `transformAndAppend`:
chain the transformers, each one's output feeding the next; a `success=false`
return breaks out of the loop keeping the bytes written so far; an error
aborts.  Returns the final body bytes. -/
def runChain (bts : List BodyTransformer) (r : List Nat) (url : String) (code : Int)
    (contentType : String) : Except String (List Nat) :=
  match bts with
  | [] => .ok r
  | t :: ts =>
    match t.transform r url code contentType with
    | .error e => .error e
    | .ok (true, out) => runChain ts out url code contentType
    | .ok (false, out) => .ok out

/-- `transformAndAppend` (`util.go`): run the body-transformer chain, then
append the resulting body to the head `buf`, stripping `Content-Length`
from the head first unless `stripContentLength` is unset (HEAD requests). -/
def transformAndAppend (buf : List Nat) (r : List Nat) (url : String) (code : Int)
    (contentType : String) (stripContentLength : Bool)
    (bts : List BodyTransformer) : Except String (List Nat) :=
  match runChain bts r url code contentType with
  | .error e => .error e
  | .ok body =>
    if stripContentLength then .ok (stripContentLengthHeader buf ++ body)
    else .ok (buf ++ body)

/-- Runs a transformer list requiring every step to return `success=true`;
yields the final intermediate bytes (used to phrase "the pipeline reached
transformer `t`"). -/
def runAllSuccess (bts : List BodyTransformer) (r : List Nat) (url : String) (code : Int)
    (contentType : String) : Option (List Nat) :=
  match bts with
  | [] => some r
  | t :: ts =>
    match t.transform r url code contentType with
    | .ok (true, out) => runAllSuccess ts out url code contentType
    | _ => none

/-- The transformers actually invoked, in order, by the chain loop. -/
def invokedTransformers (bts : List BodyTransformer) (r : List Nat) (url : String)
    (code : Int) (contentType : String) : List BodyTransformer :=
  match bts with
  | [] => []
  | t :: ts =>
    match t.transform r url code contentType with
    | .ok (true, out) => t :: invokedTransformers ts out url code contentType
    | _ => [t]

lemma runChain_append_all_success {pre : List BodyTransformer} {r r' : List Nat}
    {url : String} {code : Int} {ct : String}
    (h : runAllSuccess pre r url code ct = some r') (rest : List BodyTransformer) :
    runChain (pre ++ rest) r url code ct = runChain rest r' url code ct := by
  induction pre generalizing r with
  | nil =>
    simp [runAllSuccess] at h
    subst h
    simp
  | cons t ts ih =>
    rw [runAllSuccess] at h
    match ht : t.transform r url code ct with
    | .error e => rw [ht] at h; exact absurd h (by simp)
    | .ok (false, out) => rw [ht] at h; exact absurd h (by simp)
    | .ok (true, out) =>
      rw [ht] at h
      rw [List.cons_append, runChain, ht]
      exact ih h

lemma invoked_initialSegment (bts : List BodyTransformer) (r : List Nat) (url : String)
    (code : Int) (ct : String) :
    invokedTransformers bts r url code ct <+: bts := by
  induction bts generalizing r with
  | nil => simp [invokedTransformers]
  | cons t ts ih =>
    rw [invokedTransformers]
    match ht : t.transform r url code ct with
    | .ok (true, out) =>
      obtain ⟨rest, hrest⟩ := ih out
      exact ⟨rest, by rw [List.cons_append, hrest]⟩
    | .ok (false, out) =>
      exact ⟨ts, rfl⟩
    | .error e =>
      exact ⟨ts, rfl⟩

/-!
### Sorting at construction (`New`, `diskcache.go`)

`New` ends by sorting, for every registered matcher (the user matchers and
the default matcher), the matcher's `policy.BodyTransformers` slice in
place, ascending by `TransformPriority()`.  `sort.Slice` guarantees only
that the result is a permutation of the slice ordered by the comparison
function; it is modelled here by a deterministic insertion sort, which
produces such a permutation. -/

/-- Insert a transformer into a priority-sorted list. -/
def insertBT (t : BodyTransformer) : List BodyTransformer → List BodyTransformer
  | [] => [t]
  | u :: us => if t.priority ≤ u.priority then t :: u :: us else u :: insertBT t us

/-- The sort `New` applies to each matcher's body-transformer slice. -/
def sortBTs : List BodyTransformer → List BodyTransformer
  | [] => []
  | t :: ts => insertBT t (sortBTs ts)

/-- Ascending-by-priority check (Boolean, executable). -/
def sortedByPriority : List BodyTransformer → Bool
  | [] => true
  | [_] => true
  | a :: b :: rest => decide (a.priority ≤ b.priority) && sortedByPriority (b :: rest)

/-- The fields of `Cache` relevant to the construction-time sort: the body
transformer slices of the user matchers and of the default matcher. -/
structure CacheTransformers where
  matchers : List (List BodyTransformer)
  matcher : List BodyTransformer

/-- The `for _, v := range append(c.matchers, c.matcher)` sort loop at the
end of `New`. -/
def newSortTransformers (c : CacheTransformers) : CacheTransformers :=
  { matchers := c.matchers.map sortBTs, matcher := sortBTs c.matcher }

lemma sortedByPriority_cons {a : BodyTransformer} {l : List BodyTransformer} :
    sortedByPriority (a :: l) = true ↔
      (∀ b, l.head? = some b → a.priority ≤ b.priority) ∧ sortedByPriority l = true := by
  match l with
  | [] => simp [sortedByPriority]
  | b :: bs =>
    rw [sortedByPriority]
    simp only [Bool.and_eq_true, decide_eq_true_eq, List.head?_cons]
    constructor
    · rintro ⟨h1, h2⟩
      exact ⟨fun c hc => by cases hc; exact h1, h2⟩
    · rintro ⟨h1, h2⟩
      exact ⟨h1 b rfl, h2⟩

lemma insertBT_head? {t c : BodyTransformer} {l : List BodyTransformer}
    (h : (insertBT t l).head? = some c) : c = t ∨ l.head? = some c := by
  match l with
  | [] =>
    rw [insertBT] at h
    simp at h
    exact Or.inl h.symm
  | u :: us =>
    rw [insertBT] at h
    by_cases hle : t.priority ≤ u.priority
    · simp only [hle, if_true, List.head?_cons, Option.some_inj] at h
      exact Or.inl h.symm
    · simp only [hle, if_false, List.head?_cons, Option.some_inj] at h
      exact Or.inr (by simp [← h])

lemma sortedByPriority_insertBT {t : BodyTransformer} {l : List BodyTransformer}
    (h : sortedByPriority l = true) : sortedByPriority (insertBT t l) = true := by
  induction l with
  | nil => simp [insertBT, sortedByPriority]
  | cons u us ih =>
    rw [sortedByPriority_cons] at h
    obtain ⟨hhead, hus⟩ := h
    rw [insertBT]
    by_cases hle : t.priority ≤ u.priority
    · simp only [hle, if_true]
      rw [sortedByPriority_cons]
      refine ⟨fun c hc => by cases hc; exact hle, ?_⟩
      rw [sortedByPriority_cons]
      exact ⟨hhead, hus⟩
    · simp only [hle, if_false]
      rw [sortedByPriority_cons]
      refine ⟨fun c hc => ?_, ih hus⟩
      rcases insertBT_head? hc with rfl | hc'
      · omega
      · exact hhead c hc'

lemma sortedByPriority_sortBTs (l : List BodyTransformer) :
    sortedByPriority (sortBTs l) = true := by
  induction l with
  | nil => simp [sortBTs, sortedByPriority]
  | cons t ts ih => exact sortedByPriority_insertBT ih

lemma insertBT_perm (t : BodyTransformer) (l : List BodyTransformer) :
    (insertBT t l).Perm (t :: l) := by
  induction l with
  | nil => simp [insertBT]
  | cons u us ih =>
    rw [insertBT]
    by_cases hle : t.priority ≤ u.priority
    · simp [hle]
    · simp only [hle, if_false]
      exact (ih.cons u).trans (List.Perm.swap t u us)

lemma sortBTs_perm (l : List BodyTransformer) : (sortBTs l).Perm l := by
  induction l with
  | nil => simp [sortBTs]
  | cons t ts ih => exact (insertBT_perm ..).trans (ih.cons t)

lemma sortedByPriority_append_left :
    ∀ l₁ l₂ : List BodyTransformer,
      sortedByPriority (l₁ ++ l₂) = true → sortedByPriority l₁ = true
  | [], _, _ => rfl
  | [_], _, _ => rfl
  | a :: b :: rest, l₂, h => by
    rw [List.cons_append, List.cons_append] at h
    rw [sortedByPriority_cons] at h ⊢
    obtain ⟨h1, h2⟩ := h
    refine ⟨fun c hc => h1 c (by cases hc; simp), ?_⟩
    exact sortedByPriority_append_left (b :: rest) l₂ (by rw [List.cons_append]; exact h2)

lemma sortedByPriority_initialSegment {l₁ l₂ : List BodyTransformer}
    (h : l₁ <+: l₂) (hs : sortedByPriority l₂ = true) :
    sortedByPriority l₁ = true := by
  obtain ⟨rest, rfl⟩ := h
  exact sortedByPriority_append_left l₁ rest hs

/-!
## Errors and the marshal layer (`marshal.go`)

Go errors are split into the `fs.ErrNotExist` family (tested with
`errors.Is`) and everything else.  The gzip/zlib compression primitives are
external collaborators; each is modelled as an abstract pair of byte-stream
codec functions. -/

/-- A Go error: either the not-exist sentinel or some other error. -/
inductive GoErr where
  | notExist
  | other (msg : String)
deriving DecidableEq

/-- `MarshalUnmarshaler`: gzip, zlib (abstract codecs) and the flat
marshaler with its optional chain.  The identity variant is the absence of
a marshaler (`Option MarshalUnmarshaler = none` in a policy). -/
inductive MarshalUnmarshaler where
  | gzip (enc dec : List Nat → List Nat)
  | zlib (enc dec : List Nat → List Nat)
  | flat (chain : Option MarshalUnmarshaler)

/-- Index of the first occurrence of `\r\n\r\n` (`bytes.Index(buf, crlfcrlf)`). -/
def findCrlfCrlf : List Nat → Option Nat
  | [] => none
  | b :: rest =>
    if (b :: rest).take 4 = crlfcrlf then some 0
    else (findCrlfCrlf rest).map (· + 1)

/-- `Marshal`: gzip/zlib encode; flat locates the first `\r\n\r\n`, errors
when absent, and keeps only the body (feeding it to the chain if set). -/
def Marshal : MarshalUnmarshaler → List Nat → Except GoErr (List Nat)
  | .gzip enc _, buf => .ok (enc buf)
  | .zlib enc _, buf => .ok (enc buf)
  | .flat chain, buf =>
    match findCrlfCrlf buf with
    | none => .error (.other "unable to find header/body boundary")
    | some i =>
      match chain with
      | none => .ok (buf.drop (i + 4))
      | some c => Marshal c (buf.drop (i + 4))

/-- `Unmarshal`: gzip/zlib decode; flat emits the synthetic
`HTTP/1.1 200 OK\r\n\r\n` head followed by the (chain-unmarshaled) bytes. -/
def Unmarshal : MarshalUnmarshaler → List Nat → Except GoErr (List Nat)
  | .gzip _ dec, buf => .ok (dec buf)
  | .zlib _ dec, buf => .ok (dec buf)
  | .flat chain, buf =>
    match chain with
    | none => .ok (httpHeader ++ buf)
    | some c =>
      match Unmarshal c buf with
      | .error e => .error e
      | .ok inner => .ok (httpHeader ++ inner)

/-!
## Responses (`http.ReadResponse` / `httputil.DumpResponse`)

A response's canonical wire form is a status line, CRLF-separated headers,
a blank line and the body.  Parsing extracts the status code (the
three-digit field after the first space of the status line), the head bytes
and the body bytes; two wire forms are parse-equivalent when these agree.
-/

/-- One decimal digit per byte. -/
def isDigitByte (b : Nat) : Bool := 48 ≤ b && b ≤ 57

/-- Decimal value of a digit run. -/
def digitsToNat (l : List Nat) : Nat := l.foldl (fun acc d => acc * 10 + (d - 48)) 0

/-- The status code parsed from the head bytes: the field after the first
space of the status line must be exactly three digits. -/
def statusCodeOfHead (head : List Nat) : Option Int :=
  let line := head.takeWhile (· ≠ 13)
  let afterSpace := (line.dropWhile (· ≠ 32)).drop 1
  let codeField := afterSpace.takeWhile (· ≠ 32)
  if codeField.length = 3 ∧ codeField.all isDigitByte then some (digitsToNat codeField)
  else none

/-- A parsed HTTP response: status code, head bytes (up to but excluding
the `\r\n\r\n` separator), body bytes. -/
structure ResponseM where
  statusCode : Int
  head : List Nat
  body : List Nat
deriving DecidableEq

/-- `http.ReadResponse` on a wire-form byte sequence. -/
def parseResponse (buf : List Nat) : Option ResponseM :=
  match findCrlfCrlf buf with
  | none => none
  | some i =>
    match statusCodeOfHead (buf.take i) with
    | none => none
    | some code => some ⟨code, buf.take i, buf.drop (i + 4)⟩

/-!
## Filesystem model

The cache consumes the filesystem through `Stat` (mtime, is-dir, exists),
`OpenFile`, `MkdirAll` and `Remove` on relative paths.  A node is either
absent, a stat error, a directory, or a file with content and mtime;
`MkdirAll` is immaterial in this flat-map model. -/

/-- What `Stat`/`OpenFile` observe at a path. -/
inductive FsNode where
  | absent
  | statError (msg : String)
  | dir (mtime : Int)
  | file (content : List Nat) (mtime : Int)

/-- The filesystem: a map from keys to nodes. -/
def FS : Type := String → FsNode

/-- Overwrite a key with file content (`OpenFile` with
create+truncate+write-only, then `Write`/`Close`). -/
def fsWrite (fs : FS) (key : String) (content : List Nat) (mtime : Int) : FS :=
  fun k => if k = key then .file content mtime else fs k

/-!
## Orchestrator (`diskcache.go`: `Mod`, `Stale`, `Load`, `Exec`, `Fetch`,
`RoundTrip`, `Match`, `Evict`)
-/

/-- `Cache.Mod`: mtime of the key; stat errors propagate and a directory is
an error. -/
def Mod (fs : FS) (key : String) : Except GoErr Int :=
  match fs key with
  | .absent => .error .notExist
  | .statError m => .error (.other m)
  | .dir _ => .error (.other ("fs path " ++ key ++ " is a directory"))
  | .file _ t => .ok t

/-- `Cache.Stale`: not-exist means stale; other errors propagate; the
request-context TTL, when present, supersedes the policy TTL; an existing
file is stale iff the effective TTL is non-zero and `now` is after
`mtime + ttl`. -/
def Stale (now : Int) (ctxTTL : Option Int) (fs : FS) (key : String) (ttl : Int) :
    Except GoErr (Bool × Int) :=
  match Mod fs key with
  | .error .notExist => .ok (true, 0)
  | .error e => .error e
  | .ok mod =>
    let t := ctxTTL.getD ttl
    .ok (decide (t ≠ 0 ∧ mod + t < now), mod)

/-- The validity codes of `validate.go` (`Error`, `Retry`, `Valid` by
`iota`); the Go type is an `int`, so other values exist. -/
def ValidityError : Int := 0

/-- `Retry` validity. -/
def ValidityRetry : Int := 1

/-- `Valid` validity. -/
def ValidityValid : Int := 2

/-- A `ValidatorFunc`: `(response, mtime, staleFlag, count) → (validity,
err)`.  The request argument, fixed for the whole `RoundTrip` call, is
absorbed into the function. -/
def ValidatorFn : Type := ResponseM → Int → Bool → Int → Int × Option String

/-- A policy: TTL, transformer pipelines, optional marshaler, optional
validator (a `SimpleValidator` wrapping a `ValidatorFunc`). -/
structure PolicyM where
  ttl : Int
  headerTransformers : List (List Nat → List Nat)
  bodyTransformers : List BodyTransformer
  marshalUnmarshaler : Option MarshalUnmarshaler
  validator : Option ValidatorFn

/-- The wire response produced by the upstream transport for this request:
status code, dumped head (`httputil.DumpResponse(res, false)`, ending in
`\r\n\r\n`), body bytes and `Content-Type` header value. -/
structure UpstreamResponse where
  code : Int
  head : List Nat
  body : List Nat
  contentType : String

/-- The `if p.MarshalUnmarshaler != nil` marshal step of `Exec`: marshal
through the policy marshaler when one is set, else keep the raw payload. -/
def marshalStep (mu : Option MarshalUnmarshaler) (body : List Nat) :
    Except GoErr (List Nat) :=
  match mu with
  | none => .ok body
  | some m => Marshal m body

/-- The `if p.MarshalUnmarshaler != nil` unmarshal step of `Load`. -/
def unmarshalStep (mu : Option MarshalUnmarshaler) (content : List Nat) :
    Except GoErr (List Nat) :=
  match mu with
  | none => .ok content
  | some m => Unmarshal m content

/-- `Cache.Exec`: dump the upstream response head, strip
`Transfer-Encoding`, apply the policy header transformers in order, run the
body-transformer pipeline and append the body (stripping `Content-Length`
unless the request is a HEAD), keep this pre-marshal payload, marshal when
a marshaler is set, persist the artifact when non-empty, and return the
payload parsed back into a response.  The third component records whether
an artifact was persisted. -/
def Exec (fs : FS) (key : String) (p : PolicyM) (up : UpstreamResponse) (url : String)
    (isHead : Bool) (now : Int) : Except GoErr (FS × ResponseM × Bool) :=
  let buf := stripTransferEncodingHeader up.head
  let buf := p.headerTransformers.foldl (fun b t => t b) buf
  match transformAndAppend buf up.body url up.code up.contentType (!isHead)
      p.bodyTransformers with
  | .error e => .error (.other e)
  | .ok body =>
    match marshalStep p.marshalUnmarshaler body with
    | .error e => .error e
    | .ok stored =>
      let fs' : FS := if stored ≠ [] then fsWrite fs key stored now else fs
      match parseResponse body with
      | some res => .ok (fs', res, decide (stored ≠ []))
      | none => .error (.other "malformed response")

/-- `Cache.Load`: open the key read-only, unmarshal through the policy
marshaler when set, and parse the bytes as an HTTP response. -/
def Load (fs : FS) (key : String) (mu : Option MarshalUnmarshaler) :
    Except GoErr ResponseM :=
  match fs key with
  | .absent => .error .notExist
  | .statError m => .error (.other m)
  | .dir _ => .error (.other "fs path is a directory")
  | .file content _ =>
    match unmarshalStep mu content with
    | .error e => .error e
    | .ok raw =>
      match parseResponse raw with
      | some res => .ok res
      | none => .error (.other "malformed response")

/-- `Cache.Fetch`: check staleness; when stale or forced, `Exec` and re-`Mod`
the key, returning `false` as the flag; otherwise `Load`, returning `true`.
Also returns the filesystem after the call. -/
def Fetch (fs : FS) (key : String) (p : PolicyM) (up : UpstreamResponse) (url : String)
    (isHead : Bool) (ctxTTL : Option Int) (now : Int) (force : Bool) :
    Except GoErr (Bool × Int × ResponseM × FS) :=
  match Stale now ctxTTL fs key p.ttl with
  | .error e => .error e
  | .ok (stale, mod) =>
    if stale || force then
      match Exec fs key p up url isHead now with
      | .error e => .error e
      | .ok (fs', res, _) =>
        match Mod fs' key with
        | .error e => .error e
        | .ok mod' => .ok (false, mod', res, fs')
    else
      match Load fs key p.marshalUnmarshaler with
      | .error e => .error e
      | .ok res => .ok (true, mod, res, fs)

/-- `SimpleValidator.Validate`: call the wrapped func with the current
count; on error return `(Error, err)` without incrementing; otherwise
increment the count and return the func's validity. -/
def validateStep (f : ValidatorFn) (res : ResponseM) (mod : Int) (flag : Bool)
    (count : Int) : (Int × Option String) × Int :=
  match f res mod flag count with
  | (_, some e) => ((ValidityError, some e), count)
  | (v, none) => ((v, none), count + 1)

/-- The retry loop of `Cache.RoundTrip` after a key has matched, with the
validator count threaded through (the `SimpleValidator` state) and the
number of `Exec` invocations recorded.  `fuel` bounds the number of
iterations observed; exhausting it yields a sentinel error. -/
def roundTripLoop (fuel : Nat) (fs : FS) (key : String) (p : PolicyM)
    (up : UpstreamResponse) (url : String) (isHead : Bool) (ctxTTL : Option Int)
    (now : Int) (count : Int) (force : Bool) (execs : Nat) :
    Except GoErr (ResponseM × Nat) :=
  match fuel with
  | 0 => .error (.other "out of fuel")
  | fuel + 1 =>
    match Fetch fs key p up url isHead ctxTTL now force with
    | .error e => .error e
    | .ok (flag, mod, res, fs') =>
      let execs' := execs + (if flag then 0 else 1)
      match p.validator with
      | none => .ok (res, execs')
      | some f =>
        match validateStep f res mod flag count with
        | ((_, some e), _) => .error (.other e)
        | ((validity, none), count') =>
          if validity = ValidityError then
            .error (.other "validator returned no error, but returned Error validity")
          else if validity = ValidityRetry then
            roundTripLoop fuel fs' key p up url isHead ctxTTL now count' true execs'
          else if validity = ValidityValid then .ok (res, execs')
          else .error (.other "unable to handle validity")

/-- The validator func installed by `WithRetryStatusCode(retries,
expected...)` (`opts.go`): `Retry` when `retries < count` and the status is
not in the expected set, else `Valid`. -/
def withRetryStatusCodeFn (retries : Int) (expected : List Int) : ValidatorFn :=
  fun res _ _ count =>
    if retries < count ∧ ¬ res.statusCode ∈ expected then (ValidityRetry, none)
    else (ValidityValid, none)

/-- The zero `Policy`. -/
def emptyPolicy : PolicyM := ⟨0, [], [], none, none⟩

/-- A request, as far as matching is concerned (matchers are modelled as
functions on it). -/
structure RequestM where
  method : String

/-- The fields of `Cache` used by `Match`/`Evict`. -/
structure CacheM where
  matchers : List (RequestM → Except GoErr (String × PolicyM))
  matcher : RequestM → Except GoErr (String × PolicyM)
  noDefault : Bool

/-- The matcher loop of `Cache.Match`: first matcher returning a non-empty
key wins; none matching yields the empty key and zero policy. -/
def matchFirst : List (RequestM → Except GoErr (String × PolicyM)) → RequestM →
    Except GoErr (String × PolicyM)
  | [], _ => .ok ("", emptyPolicy)
  | m :: ms, req =>
    match m req with
    | .error e => .error e
    | .ok (key, p) => if key ≠ "" then .ok (key, p) else matchFirst ms req

/-- `Cache.Match`: the user matchers followed by the default matcher unless
`noDefault` is set. -/
def cacheMatch (c : CacheM) (req : RequestM) : Except GoErr (String × PolicyM) :=
  matchFirst (c.matchers ++ if c.noDefault then [] else [c.matcher]) req

/-- `Cache.Evict` / `Cache.EvictKey`: match the request, then remove the
matched key from the filesystem — whatever it is. -/
def cacheEvict (c : CacheM) (remove : String → Except GoErr Unit) (req : RequestM) :
    Except GoErr Unit :=
  match cacheMatch c req with
  | .error e => .error e
  | .ok (key, _) => remove key

/-!
## Key construction (`SimpleMatcher.Match`, `match.go`)

When the method glob, host regex and path regex all match, the key is built
from the template by `strings.NewReplacer` substitution of `{{method}}`
(lower-cased), the named host/path captures and `{{query}}`; the regex
engine itself is external, so the capture lists are inputs here.  The
post-substitution munging — index-path appending, `/+` collapsing, trailing
`/` trimming, long-path handling — is modelled concretely on `List Char`. -/

/-- ASCII case folding (`strings.ToLower` on the method names in play). -/
def goToLower (s : List Char) : List Char :=
  s.map fun c => if 'A' ≤ c ∧ c ≤ 'Z' then Char.ofNat (c.toNat + 32) else c

/-- First replacement pair (in argument order) whose pattern is a non-empty
prefix of `s` — how `strings.NewReplacer` selects a match at a position.
(The patterns built by `Match` are always `{{name}}`, hence non-empty.) -/
def findPair : List (List Char × List Char) → List Char → Option (List Char × List Char)
  | [], _ => none
  | (pat, rep) :: ps, s =>
    if pat ≠ [] ∧ pat.isPrefixOf s then some (pat, rep) else findPair ps s

lemma findPair_spec {ps : List (List Char × List Char)} {s pat rep : List Char}
    (h : findPair ps s = some (pat, rep)) : pat ≠ [] ∧ pat.length ≤ s.length := by
  induction ps with
  | nil => simp [findPair] at h
  | cons p ps ih =>
    obtain ⟨p1, p2⟩ := p
    rw [findPair] at h
    by_cases hc : p1 ≠ [] ∧ p1.isPrefixOf s
    · rw [if_pos hc] at h
      simp only [Option.some_inj, Prod.mk.injEq] at h
      have hp : p1 <+: s := List.isPrefixOf_iff_prefix.mp hc.2
      obtain ⟨rfl, rfl⟩ := h
      exact ⟨hc.1, hp.length_le⟩
    · rw [if_neg hc] at h
      exact ih h

/-- `strings.Replacer.Replace`: scan left to right; at each position,
replace the first matching pattern (in argument order), without overlap;
otherwise emit the byte and advance. -/
def replacerReplace (ps : List (List Char × List Char)) (s : List Char) : List Char :=
  match s with
  | [] => []
  | c :: rest =>
    match h : findPair ps (c :: rest) with
    | some (pat, rep) => rep ++ replacerReplace ps ((c :: rest).drop pat.length)
    | none => c :: replacerReplace ps rest
termination_by s.length
decreasing_by
  · have hsp := findPair_spec h
    have hpos : 0 < pat.length := List.length_pos.mpr hsp.1
    simp only [List.length_drop, List.length_cons]
    omega
  · simp

/-- The `/+` → `/` collapse (`fixRE.ReplaceAllString(key, "/")`). -/
def collapseSlashes : List Char → List Char
  | [] => []
  | [c] => [c]
  | a :: b :: rest =>
    if a = '/' ∧ b = '/' then collapseSlashes (b :: rest)
    else a :: collapseSlashes (b :: rest)

/-- `strings.TrimSuffix(key, "/")`: drop one trailing `/` when present. -/
def trimSuffixSlash (s : List Char) : List Char :=
  if s.getLast? = some '/' then s.dropLast else s

/-- `strings.HasSuffix(key, "/")`. -/
def hasSuffixSlash (s : List Char) : Bool := s.getLast? = some '/'

/-- The substitution pairs built by `SimpleMatcher.Match`: `{{method}}` →
lower-cased method, each non-empty named host/path capture, and `{{query}}`
when a query encoder is configured.  `hostCaps`/`pathCaps` pair each
subexpression name with its captured text (empty names already filtered,
as the code skips them). -/
def matchPairs (method : List Char) (hostCaps pathCaps : List (List Char × List Char))
    (query : Option (List Char)) : List (List Char × List Char) :=
  let methodPair := ("\x7b\x7bmethod\x7d\x7d".data, goToLower method)
  let capPair := fun (nc : List Char × List Char) =>
    ('{' :: '{' :: nc.1 ++ ['}', '}'], nc.2)
  methodPair :: (hostCaps.map capPair ++ pathCaps.map capPair ++
    match query with
    | some q => [("\x7b\x7bquery\x7d\x7d".data, q)]
    | none => [])

/-- The key produced by `SimpleMatcher.Match` (`match.go`, second revision)
after all three patterns matched: substitute into the template, append the
index path when the substituted key is empty or ends in `/`, collapse `/`
runs, trim one trailing `/`, then apply the long-path handler when set. -/
def simpleMatcherKey (template indexPath : List Char)
    (longPathHandler : Option (List Char → List Char))
    (pairs : List (List Char × List Char)) : List Char :=
  let key := replacerReplace pairs template
  let key := if key = [] ∨ hasSuffixSlash key then key ++ indexPath else key
  let key := trimSuffixSlash (collapseSlashes key)
  match longPathHandler with
  | some f => f key
  | none => key

/-- The key-munging order as the specification sentence states it:
substitute, collapse `/` runs, trim a trailing `/`, append the index path
when the result is empty or ends in `/`, then the long-path handler. -/
def simpleMatcherKeySpec (template indexPath : List Char)
    (longPathHandler : Option (List Char → List Char))
    (pairs : List (List Char × List Char)) : List Char :=
  let key := replacerReplace pairs template
  let key := trimSuffixSlash (collapseSlashes key)
  let key := if key = [] ∨ hasSuffixSlash key then key ++ indexPath else key
  match longPathHandler with
  | some f => f key
  | none => key

/-!
## Claim theorems
-/

/-- **C2** — Staleness: for every key and policy, `Stale` returns true
(with no error) when the file does not exist; a `Stat` error other than
not-exist propagates and a path that is a directory is an error; for an
existing file with effective TTL `t` — the request-context TTL when
present, otherwise the policy TTL — `Stale` is true if and only if `t` is
non-zero and the current time is after `mtime + t`, so `t = 0` means never
stale. -/
theorem C2_stale (now : Int) (ctxTTL : Option Int) (fs : FS) (key : String) (ttl : Int) :
    (fs key = .absent → Stale now ctxTTL fs key ttl = .ok (true, 0)) ∧
    (∀ m, fs key = .statError m → Stale now ctxTTL fs key ttl = .error (.other m)) ∧
    (∀ mt, fs key = .dir mt → ∃ msg, Stale now ctxTTL fs key ttl = .error (.other msg)) ∧
    (∀ content mt, fs key = .file content mt →
      ∃ st, Stale now ctxTTL fs key ttl = .ok (st, mt) ∧
        (st = true ↔ (ctxTTL.getD ttl ≠ 0 ∧ mt + ctxTTL.getD ttl < now)) ∧
        (ctxTTL.getD ttl = 0 → st = false)) := by
  refine ⟨?_, ?_, ?_, ?_⟩
  · intro h
    simp [Stale, Mod, h]
  · intro m h
    simp [Stale, Mod, h]
  · intro mt h
    exact ⟨"fs path " ++ key ++ " is a directory", by simp [Stale, Mod, h]⟩
  · intro content mt h
    refine ⟨decide (ctxTTL.getD ttl ≠ 0 ∧ mt + ctxTTL.getD ttl < now), ?_, ?_, ?_⟩
    · simp [Stale, Mod, h]
    · simp
    · intro h0
      simp [h0]

/-- Witness for C2 at concrete inputs: a missing file is stale; an
existing file of mtime 0 under TTL 10 is stale at time 11 and would not be
under the context override TTL 0. -/
theorem C2_stale_witness :
    Stale 11 none (fun _ => FsNode.absent) "k" 10 = .ok (true, 0) ∧
    Stale 11 none (fun _ => FsNode.file [] 0) "k" 10 = .ok (true, 0) ∧
    Stale 11 (some 0) (fun _ => FsNode.file [] 0) "k" 10 = .ok (false, 0) := by
  refine ⟨(C2_stale 11 none (fun _ => FsNode.absent) "k" 10).1 rfl, ?_, ?_⟩
  · obtain ⟨st, h1, h2, _⟩ :=
      ((C2_stale 11 none (fun _ => FsNode.file [] 0) "k" 10).2.2.2 [] 0 rfl)
    have : st = true := h2.mpr (by constructor <;> decide)
    rw [this] at h1
    exact h1
  · obtain ⟨st, h1, _, h3⟩ :=
      ((C2_stale 11 (some 0) (fun _ => FsNode.file [] 0) "k" 10).2.2.2 [] 0 rfl)
    have : st = false := h3 (by decide)
    rw [this] at h1
    exact h1

/-- **C4** — Pipeline short-circuit: in every write-path body-transformer
run, if a transformer returns `success=false` then no later transformer in
the pipeline is invoked for that request (the result does not depend on the
remaining transformers `post`), the bytes that transformer already wrote
(`out`) are kept and become the final body appended to the head, and if any
transformer returns an error the request aborts with that error. -/
theorem C4_short_circuit (buf r : List Nat) (url : String) (code : Int) (ct : String)
    (strip : Bool) (pre post : List BodyTransformer) (t : BodyTransformer)
    (r' out : List Nat) (e : String)
    (hpre : runAllSuccess pre r url code ct = some r') :
    (t.transform r' url code ct = .ok (false, out) →
      transformAndAppend buf r url code ct strip (pre ++ t :: post)
        = .ok ((if strip then stripContentLengthHeader buf else buf) ++ out)) ∧
    (t.transform r' url code ct = .error e →
      transformAndAppend buf r url code ct strip (pre ++ t :: post) = .error e) := by
  constructor
  · intro hfail
    unfold transformAndAppend
    rw [runChain_append_all_success hpre, runChain, hfail]
    cases strip <;> simp
  · intro herr
    unfold transformAndAppend
    rw [runChain_append_all_success hpre, runChain, herr]

/-- Witness for C4: a two-transformer prefix where the second returns
`success=false` having written `"kept"`, followed by a transformer that
would error; the pipeline output keeps `"kept"` and never reaches the
error. -/
theorem C4_short_circuit_witness :
    runAllSuccess [⟨10, fun r _ _ _ => .ok (true, r)⟩]
        (strBytes "body") "u" 200 "" = some (strBytes "body") ∧
    transformAndAppend (strBytes "HTTP/1.1 200 OK\r\n\r\n") (strBytes "body") "u" 200 ""
        false
        ([⟨10, fun r _ _ _ => .ok (true, r)⟩] ++
          ⟨50, fun _ _ _ _ => .ok (false, strBytes "kept")⟩ ::
          [⟨90, fun _ _ _ _ => .error "boom"⟩])
      = .ok (strBytes "HTTP/1.1 200 OK\r\n\r\n" ++ strBytes "kept") := by
  constructor
  · rfl
  · have h := (C4_short_circuit (strBytes "HTTP/1.1 200 OK\r\n\r\n") (strBytes "body")
      "u" 200 "" false [⟨10, fun r _ _ _ => .ok (true, r)⟩]
      [⟨90, fun _ _ _ _ => .error "boom"⟩]
      ⟨50, fun _ _ _ _ => .ok (false, strBytes "kept")⟩
      (strBytes "body") (strBytes "kept") "unused" rfl).1 rfl
    simpa using h

/-- **C9** — Strip rewriter totality: for every input byte slice and every
successfully compiled pattern list, the Strip header rewriter terminates
and returns a byte slice without failing — the repeat-until-no-match
replacement loop cannot run forever because each replacement strictly
shortens the buffer, and the loop's (total) result has no match left. -/
theorem C9_strip_total (fs : List (List Nat → Option Nat)) (f : List Nat → Option Nat)
    (buf : List Nat) :
    (hasMatch f buf = true → (replaceAll f buf).length < buf.length) ∧
    hasMatch f (stripLoop f buf) = false ∧
    stripHeadersFn fs buf = fs.foldl (fun b g => stripLoop g b) buf := by
  exact ⟨replaceAll_shortens f buf, stripLoop_no_match f buf, stripHeadersFn_eq fs buf⟩

/-- Witness for C9: a head with two adjacent `Set-Cookie` headers matches
the strip pattern, and one `ReplaceAll` pass strictly shortens it. -/
theorem C9_strip_total_witness :
    hasMatch (literalNameLen (strBytes "Set-Cookie"))
        (strBytes "HTTP/1.1 200 OK\r\nSet-Cookie: a\r\nSet-Cookie: b\r\n\r\n") = true ∧
    (replaceAll (literalNameLen (strBytes "Set-Cookie"))
        (strBytes "HTTP/1.1 200 OK\r\nSet-Cookie: a\r\nSet-Cookie: b\r\n\r\n")).length
      < (strBytes "HTTP/1.1 200 OK\r\nSet-Cookie: a\r\nSet-Cookie: b\r\n\r\n").length := by
  refine ⟨by decide, ?_⟩
  exact (C9_strip_total [] (literalNameLen (strBytes "Set-Cookie"))
    (strBytes "HTTP/1.1 200 OK\r\nSet-Cookie: a\r\nSet-Cookie: b\r\n\r\n")).1 (by decide)

/-- **C10** — Implicit Evict edge case: for every request that matches no
matcher (`Match` returns an empty key with no error), `Cache.Evict` is not
a no-op and does not report "no match"; it calls the filesystem `Remove`
with the empty key `""` and returns whatever error the filesystem produces
for that path. -/
theorem C10_evict_empty (c : CacheM) (remove : String → Except GoErr Unit) (req : RequestM)
    (p : PolicyM) (h : cacheMatch c req = .ok ("", p)) :
    cacheEvict c remove req = remove "" := by
  unfold cacheEvict
  rw [h]

/-- Witness for C10: a cache with no user matchers and the default matcher
suppressed matches nothing; evicting passes `""` to `Remove` and surfaces
its not-exist error. -/
theorem C10_evict_empty_witness :
    cacheMatch ⟨[], fun _ => .ok ("", emptyPolicy), true⟩ ⟨"GET"⟩ = .ok ("", emptyPolicy) ∧
    cacheEvict ⟨[], fun _ => .ok ("", emptyPolicy), true⟩
        (fun _ => Except.error GoErr.notExist) ⟨"GET"⟩ = .error GoErr.notExist := by
  refine ⟨rfl, ?_⟩
  rw [C10_evict_empty ⟨[], fun _ => .ok ("", emptyPolicy), true⟩
    (fun _ => Except.error GoErr.notExist) ⟨"GET"⟩ emptyPolicy rfl]

/-- **C6** — Retry-validator bound (code bug): the claim says the
status-code-retry validator returns `Retry` while the response status is
not in the expected set and at most `N` retries have been made.  At the
failing input — `N = 1` retries, expected `{200}`, a 404 response, count 0
— the code's condition `retries < count` (`1 < 0`) is false, so the
validator returns `Valid` instead of `Retry`, and the `RoundTrip` loop
stops after a single `Exec` with no retry ever performed (contradicting the
option's own documentation "retries when the response status is not the
expected status"). -/
theorem C6_retry_status_code :
    withRetryStatusCodeFn 1 [200]
        ⟨404, strBytes "HTTP/1.1 404 Not Found", strBytes "missing"⟩ 0 false 0
      = (ValidityValid, none) ∧
    roundTripLoop 2 (fun _ => FsNode.absent) "k"
        ⟨0, [], [], none, some (withRetryStatusCodeFn 1 [200])⟩
        ⟨404, strBytes "HTTP/1.1 404 Not Found\r\n\r\n", strBytes "missing", ""⟩
        "u" false none 5 0 false 0
      = .ok (⟨404, strBytes "HTTP/1.1 404 Not Found", strBytes "missing"⟩, 1) :=
  ⟨rfl, rfl⟩

/-- **C7** — Validator error handling: whenever a policy validator returns
the `Error` validity together with a nil error, `RoundTrip` returns an
error and no response; and whenever a validator returns a validity value
other than `Error`, `Retry`, or `Valid`, `RoundTrip` likewise returns an
error and no response. -/
theorem C7_validator_errors (fuel : Nat) (fs : FS) (key : String) (p : PolicyM)
    (up : UpstreamResponse) (url : String) (isHead : Bool) (ctxTTL : Option Int)
    (now : Int) (count : Int) (force : Bool) (execs : Nat)
    (f : ValidatorFn) (flag : Bool) (mod : Int) (res : ResponseM) (fs' : FS) (v : Int)
    (hval : p.validator = some f)
    (hFetch : Fetch fs key p up url isHead ctxTTL now force = .ok (flag, mod, res, fs'))
    (hf : f res mod flag count = (v, none))
    (hR : v ≠ ValidityRetry) (hV : v ≠ ValidityValid) :
    ∃ e, roundTripLoop (fuel + 1) fs key p up url isHead ctxTTL now count force execs
      = .error e := by
  rw [roundTripLoop, hFetch]
  simp only [hval]
  unfold validateStep
  rw [hf]
  simp only
  by_cases h0 : v = ValidityError
  · rw [if_pos h0]
    exact ⟨_, rfl⟩
  · rw [if_neg h0, if_neg hR, if_neg hV]
    exact ⟨_, rfl⟩

/-- Witness for C7: a validator constantly returning `(Error, nil)` over a
cache hit (fresh file, zero TTL) makes the loop return an error. -/
theorem C7_validator_errors_witness :
    Fetch (fun _ => FsNode.file (strBytes "HTTP/1.1 200 OK\r\n\r\nhi") 3) "k"
        ⟨0, [], [], none, some (fun _ _ _ _ => (ValidityError, none))⟩
        ⟨200, strBytes "HTTP/1.1 200 OK\r\n\r\n", strBytes "hi", ""⟩ "u" false none 5 false
      = .ok (true, 3, ⟨200, strBytes "HTTP/1.1 200 OK", strBytes "hi"⟩,
          fun _ => FsNode.file (strBytes "HTTP/1.1 200 OK\r\n\r\nhi") 3) ∧
    (∃ e, roundTripLoop 1 (fun _ => FsNode.file (strBytes "HTTP/1.1 200 OK\r\n\r\nhi") 3) "k"
        ⟨0, [], [], none, some (fun _ _ _ _ => (ValidityError, none))⟩
        ⟨200, strBytes "HTTP/1.1 200 OK\r\n\r\n", strBytes "hi", ""⟩ "u" false none 5 0 false 0
      = .error e) := by
  refine ⟨rfl, ?_⟩
  exact C7_validator_errors 0 _ "k" _ _ "u" false none 5 0 false 0
    (fun _ _ _ _ => (ValidityError, none)) true 3
    ⟨200, strBytes "HTTP/1.1 200 OK", strBytes "hi"⟩ _ ValidityError
    rfl rfl rfl (by decide) (by decide)

/-- **C8 counterexample** — the claim says the fourth `Validate` argument
is true exactly when the artifact was absent or past its TTL (a fresh
`Exec` was performed).  At a concrete input with the artifact absent, the
staleness decision is true, yet `Fetch` returns `false` as the flag after
performing the fresh `Exec`. -/
theorem C8_counterexample :
    Stale 5 none (fun _ => FsNode.absent) "k" 0 = .ok (true, 0) ∧
    Fetch (fun _ => FsNode.absent) "k" ⟨0, [], [], none, none⟩
        ⟨200, strBytes "HTTP/1.1 200 OK\r\n\r\n", strBytes "hi", ""⟩ "u" false none 5 false
      = .ok (false, 5, ⟨200, strBytes "HTTP/1.1 200 OK", strBytes "hi"⟩,
          fsWrite (fun _ => FsNode.absent) "k" (strBytes "HTTP/1.1 200 OK\r\n\r\nhi") 5) :=
  ⟨rfl, rfl⟩

/-- **C8 (amended)** — Validator stale-flag argument: the fourth argument
passed to `Validate` by the `RoundTrip` loop is the first component of
`Fetch`'s result, which equals the *negation* of that iteration's
stale-or-forced decision: it is `false` when the artifact was absent, past
its TTL, or a retry was forced (so a fresh network `Exec` was performed),
and `true` when the response was served by loading the cached artifact. -/
theorem C8_fetch_flag (fs : FS) (key : String) (p : PolicyM) (up : UpstreamResponse)
    (url : String) (isHead : Bool) (ctxTTL : Option Int) (now : Int) (force : Bool)
    (st : Bool) (m0 : Int) (flag : Bool) (mod : Int) (res : ResponseM) (fs' : FS)
    (hStale : Stale now ctxTTL fs key p.ttl = .ok (st, m0))
    (hFetch : Fetch fs key p up url isHead ctxTTL now force = .ok (flag, mod, res, fs')) :
    flag = !(st || force) := by
  unfold Fetch at hFetch
  rw [hStale] at hFetch
  by_cases hsf : (st || force) = true
  · rw [hsf]
    simp only [hsf, if_true] at hFetch
    split at hFetch
    · exact absurd hFetch (by simp)
    · split at hFetch
      · exact absurd hFetch (by simp)
      · injection hFetch with h
        injection h with h1 _
        exact h1.symm
  · rw [Bool.not_eq_true] at hsf
    rw [hsf]
    simp only [hsf, Bool.false_eq_true, if_false] at hFetch
    split at hFetch
    · exact absurd hFetch (by simp)
    · injection hFetch with h
      injection h with h1 _
      exact h1.symm

/-- Witness for C8's amended theorem: on a cache hit (file fresh under zero
TTL, no force) the flag is `true = !(false || false)`. -/
theorem C8_fetch_flag_witness :
    Stale 5 none (fun _ => FsNode.file (strBytes "HTTP/1.1 200 OK\r\n\r\nhi") 3) "k" 0
      = .ok (false, 3) ∧
    (true : Bool) = !(false || false) := by
  refine ⟨rfl, ?_⟩
  exact C8_fetch_flag (fun _ => FsNode.file (strBytes "HTTP/1.1 200 OK\r\n\r\nhi") 3) "k"
    ⟨0, [], [], none, none⟩ ⟨200, strBytes "HTTP/1.1 200 OK\r\n\r\n", strBytes "hi", ""⟩
    "u" false none 5 false false 3 true 3
    ⟨200, strBytes "HTTP/1.1 200 OK", strBytes "hi"⟩
    (fun _ => FsNode.file (strBytes "HTTP/1.1 200 OK\r\n\r\nhi") 3) rfl rfl

/-!
### C1 — store→load round trip
-/

/-- The marshalers whose `Unmarshal` is a left inverse of their `Marshal`:
the identity (no marshaler) and gzip/zlib with a correct codec.  The flat
variants are excluded: they discard the stored head and synthesize
`HTTP/1.1 200 OK` on read. -/
def UnmarshalInvertsMarshal : Option MarshalUnmarshaler → Prop
  | none => True
  | some (.gzip enc dec) => ∀ x, dec (enc x) = x
  | some (.zlib enc dec) => ∀ x, dec (enc x) = x
  | some (.flat _) => False

lemma marshal_roundtrip {mu : Option MarshalUnmarshaler} (hInv : UnmarshalInvertsMarshal mu)
    {body stored : List Nat} (hm : marshalStep mu body = .ok stored) :
    unmarshalStep mu stored = .ok body := by
  match mu with
  | none =>
    simp only [marshalStep] at hm
    injection hm with h
    simp only [unmarshalStep, h]
  | some (.gzip enc dec) =>
    simp only [marshalStep, Marshal] at hm
    injection hm with h
    simp only [unmarshalStep, Unmarshal, ← h, hInv body]
  | some (.zlib enc dec) =>
    simp only [marshalStep, Marshal] at hm
    injection hm with h
    simp only [unmarshalStep, Unmarshal, ← h, hInv body]
  | some (.flat _) => exact absurd hInv (by simp [UnmarshalInvertsMarshal])

/-- **C1 counterexample** — the claim quantifies over "any marshaler
(identity, gzip, zlib, flat, or flat-chained)".  Under the flat marshaler, a
404 upstream response is persisted (body `"missing"`, non-empty), yet
`Load` of the same key under the same policy parses to a `200 OK` response
with the synthetic head, which is not parse-equivalent to the 404 payload
`Exec` returned to the caller. -/
theorem C1_counterexample :
    Exec (fun _ => FsNode.absent) "k" ⟨0, [], [], some (.flat none), none⟩
        ⟨404, strBytes "HTTP/1.1 404 Not Found\r\n\r\n", strBytes "missing", ""⟩ "u" false 5
      = .ok (fsWrite (fun _ => FsNode.absent) "k" (strBytes "missing") 5,
          ⟨404, strBytes "HTTP/1.1 404 Not Found", strBytes "missing"⟩, true) ∧
    Load (fsWrite (fun _ => FsNode.absent) "k" (strBytes "missing") 5) "k"
        (some (.flat none))
      = .ok ⟨200, strBytes "HTTP/1.1 200 OK", strBytes "missing"⟩ ∧
    (⟨404, strBytes "HTTP/1.1 404 Not Found", strBytes "missing"⟩ : ResponseM)
      ≠ ⟨200, strBytes "HTTP/1.1 200 OK", strBytes "missing"⟩ :=
  ⟨rfl, rfl, by decide⟩

/-- **C1 (amended)** — Store-then-load round trip: for every response
fetched through `Exec` under a policy with any body transformers and any
marshaler whose `Unmarshal` is a left inverse of its `Marshal` (identity,
gzip, or zlib with a correct codec — not flat or flat-chained, which
replace the head with a synthetic `HTTP/1.1 200 OK` head) that persists an
artifact at key `K`, a subsequent `Load` of `K` under the same policy
yields exactly the parsed response `Exec` returned to the caller (the
pre-marshal head-plus-body payload, parsed). -/
theorem C1_store_load_roundtrip (fs : FS) (key : String) (p : PolicyM)
    (up : UpstreamResponse) (url : String) (isHead : Bool) (now : Int)
    (fs' : FS) (res : ResponseM)
    (hInv : UnmarshalInvertsMarshal p.marshalUnmarshaler)
    (hExec : Exec fs key p up url isHead now = .ok (fs', res, true)) :
    Load fs' key p.marshalUnmarshaler = .ok res := by
  unfold Exec at hExec
  dsimp only at hExec
  split at hExec
  · exact absurd hExec (by simp)
  · rename_i body hbody
    split at hExec
    · exact absurd hExec (by simp)
    · rename_i stored hstored
      split at hExec
      · rename_i r hparse
        injection hExec with h
        injection h with h1 h2
        injection h2 with h2 h3
        subst h1
        subst h2
        have hne : stored ≠ [] := by
          by_contra hnil
          rw [decide_eq_true_eq] at h3
          exact h3 hnil
        rw [if_pos hne]
        unfold Load
        simp [fsWrite, marshal_roundtrip hInv hstored, hparse]
      · exact absurd hExec (by simp)

/-- Witness for C1: under a gzip marshaler with an identity codec, a 404
response round-trips: `Exec` persists and the subsequent `Load` returns the
very response `Exec` produced. -/
theorem C1_store_load_roundtrip_witness :
    Exec (fun _ => FsNode.absent) "k" ⟨0, [], [], some (.gzip id id), none⟩
        ⟨404, strBytes "HTTP/1.1 404 Not Found\r\n\r\n", strBytes "missing", ""⟩ "u" false 5
      = .ok (fsWrite (fun _ => FsNode.absent) "k"
            (strBytes "HTTP/1.1 404 Not Found\r\n\r\nmissing") 5,
          ⟨404, strBytes "HTTP/1.1 404 Not Found", strBytes "missing"⟩, true) ∧
    Load (fsWrite (fun _ => FsNode.absent) "k"
        (strBytes "HTTP/1.1 404 Not Found\r\n\r\nmissing") 5) "k" (some (.gzip id id))
      = .ok ⟨404, strBytes "HTTP/1.1 404 Not Found", strBytes "missing"⟩ := by
  refine ⟨rfl, ?_⟩
  exact C1_store_load_roundtrip (fun _ => FsNode.absent) "k"
    ⟨0, [], [], some (.gzip id id), none⟩
    ⟨404, strBytes "HTTP/1.1 404 Not Found\r\n\r\n", strBytes "missing", ""⟩ "u" false 5
    (fsWrite (fun _ => FsNode.absent) "k"
      (strBytes "HTTP/1.1 404 Not Found\r\n\r\nmissing") 5)
    ⟨404, strBytes "HTTP/1.1 404 Not Found", strBytes "missing"⟩
    (fun _ => rfl) rfl

/-- **C5** — Transformer ordering invariant: after `New` returns, the
body-transformer slice of every registered matcher (user matchers and the
default matcher) is sorted ascending by `TransformPriority` (and is a
permutation of the slice the options built), and every subsequent
write-path run invokes the transformers as an in-order prefix of that
slice — hence in ascending-priority order — regardless of the order in
which options appended them. -/
theorem C5_transformer_order (c : CacheTransformers) (r : List Nat) (url : String)
    (code : Int) (ct : String) :
    (∀ bts, (bts ∈ (newSortTransformers c).matchers ∨ bts = (newSortTransformers c).matcher) →
      sortedByPriority bts = true ∧
      invokedTransformers bts r url code ct <+: bts ∧
      sortedByPriority (invokedTransformers bts r url code ct) = true) ∧
    List.Forall₂ (fun a b => a.Perm b) (newSortTransformers c).matchers c.matchers ∧
    ((newSortTransformers c).matcher).Perm c.matcher := by
  refine ⟨?_, ?_, sortBTs_perm _⟩
  · rintro bts (hmem | rfl)
    · simp only [newSortTransformers, List.mem_map] at hmem
      obtain ⟨orig, _, rfl⟩ := hmem
      exact ⟨sortedByPriority_sortBTs orig, invoked_initialSegment ..,
        sortedByPriority_initialSegment (invoked_initialSegment ..) (sortedByPriority_sortBTs orig)⟩
    · exact ⟨sortedByPriority_sortBTs _, invoked_initialSegment ..,
        sortedByPriority_initialSegment (invoked_initialSegment ..) (sortedByPriority_sortBTs _)⟩
  · simp only [newSortTransformers]
    induction c.matchers with
    | nil => exact List.Forall₂.nil
    | cons x xs ih => exact List.Forall₂.cons (sortBTs_perm x) ih

/-- Witness for C5: a default matcher whose options appended priorities
`[80, 10]` ends up sorted `[10, 80]` after construction, and a run invokes
that prefix in ascending order. -/
theorem C5_transformer_order_witness :
    ((newSortTransformers ⟨[], [⟨80, fun r _ _ _ => .ok (true, r)⟩,
        ⟨10, fun r _ _ _ => .ok (true, r)⟩]⟩).matcher).map
        (fun t => t.priority) = [10, 80] ∧
    (sortedByPriority (newSortTransformers ⟨[], [⟨80, fun r _ _ _ => .ok (true, r)⟩,
        ⟨10, fun r _ _ _ => .ok (true, r)⟩]⟩).matcher = true ∧
      invokedTransformers (newSortTransformers ⟨[], [⟨80, fun r _ _ _ => .ok (true, r)⟩,
          ⟨10, fun r _ _ _ => .ok (true, r)⟩]⟩).matcher [] "u" 200 ""
        <+: (newSortTransformers ⟨[], [⟨80, fun r _ _ _ => .ok (true, r)⟩,
          ⟨10, fun r _ _ _ => .ok (true, r)⟩]⟩).matcher ∧
      sortedByPriority (invokedTransformers (newSortTransformers ⟨[],
          [⟨80, fun r _ _ _ => .ok (true, r)⟩, ⟨10, fun r _ _ _ => .ok (true, r)⟩]⟩).matcher
          [] "u" 200 "") = true) := by
  refine ⟨by decide, ?_⟩
  exact (C5_transformer_order ⟨[], [⟨80, fun r _ _ _ => .ok (true, r)⟩,
    ⟨10, fun r _ _ _ => .ok (true, r)⟩]⟩ [] "u" 200 "").1 _ (Or.inr rfl)

/-!
### C3 — key construction order
-/

lemma collapseSlashes_ne_nil : ∀ l : List Char, l ≠ [] → collapseSlashes l ≠ []
  | [], h => absurd rfl h
  | [c], _ => by simp [collapseSlashes]
  | a :: b :: rest, _ => by
    rw [collapseSlashes]
    by_cases hab : a = '/' ∧ b = '/'
    · rw [if_pos hab]
      exact collapseSlashes_ne_nil (b :: rest) (by simp)
    · rw [if_neg hab]
      simp

lemma collapseSlashes_getLast? : ∀ l : List Char,
    (collapseSlashes l).getLast? = l.getLast?
  | [] => rfl
  | [c] => rfl
  | a :: b :: rest => by
    rw [collapseSlashes]
    by_cases hab : a = '/' ∧ b = '/'
    · rw [if_pos hab, collapseSlashes_getLast? (b :: rest)]
      exact (List.getLast?_cons_cons ..).symm
    · rw [if_neg hab]
      obtain ⟨x, xs, hx⟩ := List.exists_cons_of_ne_nil
        (collapseSlashes_ne_nil (b :: rest) (by simp))
      rw [hx, List.getLast?_cons_cons, ← hx, collapseSlashes_getLast? (b :: rest)]
      exact (List.getLast?_cons_cons ..).symm

lemma trimSuffixSlash_of_not_slash {s : List Char} (h : s.getLast? ≠ some '/') :
    trimSuffixSlash s = s := if_neg h

/-- The amended key-munging order (the code's order): substitute, append
the index path when the *substituted* key is empty or ends in `/`, then
collapse `/` runs, then trim one trailing `/`, then the long-path
handler. -/
def appendIndexIfEmptyOrSlash (indexPath key : List Char) : List Char :=
  if key = [] ∨ hasSuffixSlash key then key ++ indexPath else key

/-- Staged form of the amended claim's pipeline. -/
def simpleMatcherKeyAmended (template indexPath : List Char)
    (longPathHandler : Option (List Char → List Char))
    (pairs : List (List Char × List Char)) : List Char :=
  let key := appendIndexIfEmptyOrSlash indexPath (replacerReplace pairs template)
  let key := trimSuffixSlash (collapseSlashes key)
  match longPathHandler with
  | some f => f key
  | none => key

/-- **C3 counterexample** — the claim's order (collapse, trim, then append
the index token) disagrees with the code on the substituted key `"a/"` with
index path `"?index"`: the code yields `"a/?index"` while the claimed order
yields `"a"`. -/
theorem C3_counterexample :
    simpleMatcherKey "a/".data "?index".data none
        (matchPairs "GET".data [] [] none) = "a/?index".data ∧
    simpleMatcherKeySpec "a/".data "?index".data none
        (matchPairs "GET".data [] [] none) = "a".data ∧
    simpleMatcherKey "a/".data "?index".data none (matchPairs "GET".data [] [] none)
      ≠ simpleMatcherKeySpec "a/".data "?index".data none
          (matchPairs "GET".data [] [] none) := by
  refine ⟨?_, ?_, ?_⟩
  · simp [simpleMatcherKey, replacerReplace, findPair, collapseSlashes, trimSuffixSlash,
      hasSuffixSlash, goToLower, matchPairs]
  · simp [simpleMatcherKeySpec, replacerReplace, findPair, collapseSlashes, trimSuffixSlash,
      hasSuffixSlash, goToLower, matchPairs]
  · simp [simpleMatcherKey, simpleMatcherKeySpec, replacerReplace, findPair, collapseSlashes,
      trimSuffixSlash, hasSuffixSlash, goToLower, matchPairs]

/-- **C3 (amended)** — Key construction: for every matching request the key
is produced by substituting into the template, *then appending the
configured index-path token if the substituted key is empty or ends in
`/`*, then collapsing runs of `/`, then trimming one trailing `/`, and
finally applying the long-path handler when configured.  Moreover, with a
non-empty index token not ending in `/` (such as the default `?index`) and
no long-path handler, the produced key is never empty and never ends in
`/`. -/
theorem C3_key_construction (template indexPath : List Char)
    (lph : Option (List Char → List Char)) (pairs : List (List Char × List Char)) :
    simpleMatcherKey template indexPath lph pairs
      = simpleMatcherKeyAmended template indexPath lph pairs ∧
    (indexPath ≠ [] → indexPath.getLast? ≠ some '/' → lph = none →
      simpleMatcherKey template indexPath lph pairs ≠ [] ∧
      hasSuffixSlash (simpleMatcherKey template indexPath lph pairs) = false) := by
  constructor
  · rfl
  · intro hip hipSlash hlph
    subst hlph
    unfold simpleMatcherKey
    dsimp only
    set s := replacerReplace pairs template with hs
    set key0 := if s = [] ∨ hasSuffixSlash s then s ++ indexPath else s with hkey0
    have hk0 : key0 ≠ [] ∧ key0.getLast? ≠ some '/' := by
      rw [hkey0]
      by_cases hc : s = [] ∨ hasSuffixSlash s
      · rw [if_pos hc]
        constructor
        · simp [hip]
        · rw [List.getLast?_append_of_ne_nil s hip]
          exact hipSlash
      · rw [if_neg hc]
        push_neg at hc
        refine ⟨hc.1, ?_⟩
        have := hc.2
        simpa [hasSuffixSlash] using this
    have hcoll_ne := collapseSlashes_ne_nil key0 hk0.1
    have hcoll_last : (collapseSlashes key0).getLast? ≠ some '/' := by
      rw [collapseSlashes_getLast? key0]
      exact hk0.2
    rw [trimSuffixSlash_of_not_slash hcoll_last]
    refine ⟨hcoll_ne, ?_⟩
    simp [hasSuffixSlash, hcoll_last]

/-- Witness for C3's amended theorem at the default configuration: the key
computed for template `"a/"` with index path `"?index"` is non-empty and
slash-free. -/
theorem C3_key_construction_witness :
    "?index".data ≠ ([] : List Char) ∧ "?index".data.getLast? ≠ some '/' ∧
    simpleMatcherKey "a/".data "?index".data none (matchPairs "GET".data [] [] none) ≠ [] ∧
    hasSuffixSlash (simpleMatcherKey "a/".data "?index".data none
      (matchPairs "GET".data [] [] none)) = false := by
  refine ⟨by decide, by decide, ?_⟩
  exact (C3_key_construction "a/".data "?index".data none
    (matchPairs "GET".data [] [] none)).2 (by decide) (by decide) rfl

end Diskcache
